import Mathlib

/-!
Shallow embedding of the z80-assembler back end
(src/libs/z80-assembler/src/lib/compiler/Labels.ts: the symbol table, the
expression-evaluation combinators and the AST byte emitters).

Modelling conventions:
* JavaScript numbers are modelled as `Int`; all values handled by this code
  are integers and stay far below 2^53, so arithmetic is exact.
* `number | null` becomes `Option Int`; a thrown `CompilationError` becomes
  `Except.error`.
* The process-wide `Map<string, Label>` becomes an explicit association list
  in insertion order (`Map.set` replaces in place or appends, `entries`
  iterates in insertion order), threaded through every operation.
* JavaScript bitwise operators coerce their operands to 32-bit integers
  (`ToInt32`/`ToUint32`) and return a signed 32-bit result; `jsAnd`, `jsOr`,
  `jsXor`, `jsShl`, `jsShr`, `jsNot` model that conversion explicitly.
-/

namespace Z80

/-- Source position inside a file, as produced by the tsPEG grammar. -/
structure PosInfo where
  overallPos : Nat := 0
  line : Nat := 0
  offset : Nat := 0
deriving DecidableEq

/-- `Position` from Types.ts: a file name plus a position in it. -/
structure Position where
  filename : String
  pos : PosInfo
deriving DecidableEq

/-- `CompilationError` carries the position of the faulty element and a
human-readable message. -/
structure CompilationError where
  position : Position
  message : String
deriving DecidableEq

/-- The grammar type `Expression` as the symbol table uses it: Labels.ts calls
`label.expression.eval()` with no arguments, so here a stored expression is an
opaque thunk producing a number or null. -/
abbrev LExpr : Type := Unit → Option Int

/-- `Label` record from Labels.ts. -/
structure Label where
  expression : Option LExpr
  value : Int
  known : Bool
  used : Bool

/-- `Labels = Map<string, Label>`, in insertion order. -/
abbrev Labels : Type := List (String × Label)

/-- `Map.get`: the value bound to a key, if present. -/
def mapGet : Labels → String → Option Label
  | [], _ => none
  | (k, v) :: rest, n => if k = n then some v else mapGet rest n

/-- `Map.set`: replace the binding in place if the key is present, otherwise
append it (JavaScript Map keeps insertion order). -/
def mapSet : Labels → String → Label → Labels
  | [], n, l => [(n, l)]
  | (k, v) :: rest, n, l => if k = n then (k, l) :: rest else (k, v) :: mapSet rest n l

/-- `resetLabels()`: clears all entries. -/
def resetLabels : Labels := []

/-- `addLabel(pos, name, value)` (the position argument is unused by the
source, hence absent here). -/
def addLabel (st : Labels) (name : String) (value : Option Int) : Labels :=
  match mapGet st name with
  | none =>
      mapSet st name { expression := none, value := value.getD 0,
                       known := value.isSome, used := false }
  | some label =>
      -- the source has two branches (`label.known` true / fall-through) that
      -- perform the identical assignments
      if label.known then
        mapSet st name { label with value := value.getD 0, known := value.isSome }
      else
        mapSet st name { label with value := value.getD 0, known := value.isSome }

/-- `addLabelExpression(pos, name, expression)`. -/
def addLabelExpression (st : Labels) (name : String) (expression : LExpr) : Labels :=
  match mapGet st name with
  | none =>
      mapSet st name { expression := some expression, value := 0,
                       known := false, used := false }
  | some label =>
      if label.known then st
      else mapSet st name { label with expression := some expression }

/-- `getLabelValue(name)`: lazy, memoized resolution.  Returns the resolved
value (or none) together with the updated table. -/
def getLabelValue (st : Labels) (name : String) : Option Int × Labels :=
  match mapGet st name with
  | none =>
      (none, mapSet st name { expression := none, value := 0, known := false, used := true })
  | some label =>
      let label := { label with used := true }
      if label.known then (some label.value, mapSet st name label)
      else
        match label.expression with
        | none => (none, mapSet st name label)
        | some e =>
          match e () with
          | none => (none, mapSet st name label)
          | some value =>
              (some value, mapSet st name { label with value := value, known := true })

/-- In the source, `getUnknownLabels` filters on `label.value == null` where
`value` has TypeScript type `number`; a JavaScript number is never loosely
equal to `null`, so the test is constantly false. -/
def jsNumberEqNull (_ : Int) : Bool := false

/-- `getUnknownLabels()`: the names whose entry is not known and whose value
compares loosely equal to null. -/
def getUnknownLabels (st : Labels) : List String :=
  (st.filter fun p => !p.2.known && jsNumberEqNull p.2.value).map fun p => p.1

/-! JavaScript 32-bit coercions used by the bitwise operators. -/

/-- `ToUint32`: the argument modulo 2^32, as a natural number. -/
def toUint32 (a : Int) : Nat := (a % 4294967296).toNat

/-- Reinterpret a 32-bit pattern as a signed 32-bit integer. -/
def int32OfUint32 (u : Nat) : Int :=
  if u < 2147483648 then (u : Int) else (u : Int) - 4294967296

/-- `ToInt32`: the argument coerced to a signed 32-bit integer. -/
def toInt32 (a : Int) : Int := int32OfUint32 (toUint32 a)

/-- JavaScript `a & b`. -/
def jsAnd (a b : Int) : Int := int32OfUint32 (toUint32 a &&& toUint32 b)

/-- JavaScript `a | b`. -/
def jsOr (a b : Int) : Int := int32OfUint32 (toUint32 a ||| toUint32 b)

/-- JavaScript `a ^ b`. -/
def jsXor (a b : Int) : Int := int32OfUint32 (toUint32 a ^^^ toUint32 b)

/-- JavaScript `a << b`. -/
def jsShl (a b : Int) : Int :=
  int32OfUint32 ((toUint32 a <<< (toUint32 b % 32)) % 4294967296)

/-- JavaScript `a >> b` (sign-propagating shift, i.e. flooring division of the
32-bit value by a power of two). -/
def jsShr (a b : Int) : Int := Int.fdiv (toInt32 a) (2 ^ (toUint32 b % 32))

/-- JavaScript `~a`. -/
def jsNot (a : Int) : Int := int32OfUint32 (toUint32 a ^^^ 4294967295)

/-! The operator functions from Ast.ts. -/

def operatorOr (a b : Int) : Int := jsOr a b
def operatorXor (a b : Int) : Int := jsXor a b
def operatorAnd (a b : Int) : Int := jsAnd a b
def operatorLeftShift (a b : Int) : Int := jsShl a b
def operatorRightShift (a b : Int) : Int := jsShr a b
def operatorAdd (a b : Int) : Int := a + b
def operatorSub (a b : Int) : Int := a - b
def operatorMul (a b : Int) : Int := a * b

/-- `Math.trunc(a / b)`: division truncating toward zero.  (For `b = 0` the
JavaScript expression produces Infinity or NaN, outside this integer model.) -/
def operatorDiv (a b : Int) : Int := Int.tdiv a b

/-- JavaScript `a % b`: remainder with the sign of the dividend. -/
def operatorModulo (a b : Int) : Int := Int.tmod a b

def operatorPlus (a : Int) : Int := a
def operatorNeg (a : Int) : Int := -a
def operatorInvert (a : Int) : Int := jsNot a
def operatorIdentity (a : Int) : Int := a

/-- `EvalFunc = (pc, mustExist) => number | null`. -/
abbrev EvalFunc : Type := Int → Bool → Option Int

/-- `binaryOperation(left, right, op)`: the left side is an optional wrapper
whose `e` field is evaluable; here it is the inner evaluation function
directly. -/
def binaryOperation (left : Option EvalFunc) (right : EvalFunc)
    (op : Int → Int → Int) : EvalFunc :=
  fun pc mustExist =>
    let rightValue := right pc mustExist
    match left with
    | none => rightValue
    | some l =>
        let leftValue := l pc mustExist
        match leftValue, rightValue with
        | some a, some b => some (op a b)
        | _, _ => none

/-- `unaryOperation(e, op)`. -/
def unaryOperation (e : EvalFunc) (op : Int → Int) : EvalFunc :=
  fun pc mustExist =>
    match e pc mustExist with
    | none => none
    | some value => some (op value)

/-- Bytes produced by an emitter. -/
abbrev bytes : Type := List Int

/-- `low(value) = value & 0x00FF`. -/
def low (value : Int) : Int := jsAnd value 0x00FF

/-- `high(value) = (value & 0xFF00) >> 8`. -/
def high (value : Int) : Int := jsShr (jsAnd value 0xFF00) 8

/-! The AST byte emitters.  `generate` throws `CompilationError`, modelled as
`Except CompilationError bytes`. -/

/-- The `Value16` element: a 16-bit little-endian value. -/
structure Value16 where
  position : Position
  expression : EvalFunc

def Value16.size (_ : Value16) : Int := 2

def Value16.generate (self : Value16) (pc : Int) : Except CompilationError bytes :=
  match self.expression pc true with
  | none => .error ⟨self.position, "Not able to determine the 16-bits value"⟩
  | some v =>
    if v < -65536 || v > 65535 then
      .error ⟨self.position, "Invalid 16-bits value"⟩
    else
      let v := if v < 0 then 65536 + v else v
      .ok [jsAnd v 0x00FF, jsShr (jsAnd v 0xFF00) 8]

/-- The `Value8` element: an 8-bit value. -/
structure Value8 where
  position : Position
  expression : EvalFunc

def Value8.size (_ : Value8) : Int := 1

def Value8.generate (self : Value8) (pc : Int) : Except CompilationError bytes :=
  match self.expression pc true with
  | none => .error ⟨self.position, "Not able to determine the 8-bits value"⟩
  | some v =>
    if v < -256 || v > 255 then
      .error ⟨self.position, "Invalid 8-bits value"⟩
    else
      let v := if v < 0 then 256 + v else v
      .ok [v]

/-- The `ValueNeg8` element: an 8-bit value negated before encoding. -/
structure ValueNeg8 where
  position : Position
  expression : EvalFunc

def ValueNeg8.size (_ : ValueNeg8) : Int := 1

def ValueNeg8.generate (self : ValueNeg8) (pc : Int) : Except CompilationError bytes :=
  match self.expression pc true with
  | none => .error ⟨self.position, "Not able to determine the 8-bits value"⟩
  | some v0 =>
    let v := -v0
    if v < -256 || v > 255 then
      .error ⟨self.position, "Invalid 8-bits value"⟩
    else
      let v := if v < 0 then 256 + v else v
      .ok [v]

/-- The `Jr` element: an absolute offset for a relative jump. -/
structure Jr where
  position : Position
  expression : EvalFunc

def Jr.size (_ : Jr) : Int := 1

def Jr.generate (self : Jr) (pc : Int) : Except CompilationError bytes :=
  match self.expression pc true with
  | none => .error ⟨self.position, "Not able to determine the offset value"⟩
  | some offset =>
    if offset < -126 || offset > 129 then
      .error ⟨self.position, "Invalid offset for JR instruction"⟩
    else
      let offset := offset - 2
      let offset := if offset < 0 then 256 + offset else offset
      .ok [offset]

/-- Modelled from the spec: the five-argument `getLabelValue` overload that
`JrRelative.generate` calls is not among the sources; per the spec it
resolves the target label via the Symbol Table with `mustResolveLabels =
true`, which is the symbol-table resolution `getLabelValue` above. -/
def resolveLabelForJr (st : Labels) (name : String) : Option Int × Labels :=
  getLabelValue st name

/-- The `JrRelative` element: a label-relative offset for a relative jump.
Its `generate` reads the symbol table, so it also returns the updated table;
the source guards `pc == null`, so `pc` arrives as an optional value. -/
structure JrRelative where
  position : Position
  label : String

def JrRelative.size (_ : JrRelative) : Int := 1

def JrRelative.generate (self : JrRelative) (st : Labels) (pc : Option Int) :
    Except CompilationError bytes × Labels :=
  match pc with
  | none => (.error ⟨self.position, "Not able to determine PC value"⟩, st)
  | some pc =>
    match resolveLabelForJr st self.label with
    | (none, st) =>
        (.error ⟨self.position, "Not able to determine the value of label"⟩, st)
    | (some targetAddress, st) =>
      let offset := targetAddress - pc
      if offset < -126 || offset > 129 then
        (.error ⟨self.position, "Label is too far from JR instruction"⟩, st)
      else
        let offset := offset - 2
        let offset := if offset < 0 then 256 + offset else offset
        (.ok [offset], st)

/-! A small language of symbol-table operations, used to state that a run may
keep mutating the table between two resolutions. -/

/-- One call into the symbol table. -/
inductive LabelOp where
  | declare (name : String) (value : Option Int)
  | declareExpr (name : String) (e : LExpr)
  | read (name : String)

/-- The effect of one call on the table. -/
def LabelOp.apply (st : Labels) : LabelOp → Labels
  | .declare n v => addLabel st n v
  | .declareExpr n e => addLabelExpression st n e
  | .read n => (getLabelValue st n).2

/-- Whether an operation declares (rebinds) the given name; reads never do. -/
def LabelOp.declares : LabelOp → String → Bool
  | .declare m _, n => m == n
  | .declareExpr m _, n => m == n
  | .read _, _ => false

/-- Run a sequence of symbol-table calls left to right. -/
def runOps (st : Labels) (ops : List LabelOp) : Labels :=
  ops.foldl LabelOp.apply st

/-! ### Association-list lemmas -/

theorem mapGet_mapSet_self (st : Labels) (n : String) (l : Label) :
    mapGet (mapSet st n l) n = some l := by
  induction st with
  | nil => simp [mapSet, mapGet]
  | cons hd tl ih =>
      obtain ⟨k, v⟩ := hd
      by_cases h : k = n
      · simp [mapSet, mapGet, h]
      · simp [mapSet, mapGet, h, ih]

theorem mapGet_mapSet_ne (st : Labels) (m n : String) (l : Label) (h : n ≠ m) :
    mapGet (mapSet st m l) n = mapGet st n := by
  induction st with
  | nil => simp [mapSet, mapGet, Ne.symm h]
  | cons hd tl ih =>
      obtain ⟨k, v⟩ := hd
      by_cases hk : k = m
      · subst hk
        simp [mapSet, mapGet, Ne.symm h]
      · simp only [mapSet, if_neg hk, mapGet, ih]

/-- C1: the source intends `getUnknownLabels` to report names that are neither
known nor carry a value, but the filter tests `label.value == null` on a field
of type `number`, which is always false; the function therefore returns the
empty list on every table.  In particular after a run in which label X was
only ever read via `getLabelValue`, the result does not contain X. -/
theorem c1_getUnknownLabels_always_empty :
    (∀ st : Labels, getUnknownLabels st = [])
    ∧ getUnknownLabels (getLabelValue resetLabels "X").2 = [] := by
  constructor
  · intro st
    simp [getUnknownLabels, jsNumberEqNull]
  · rfl

/-- C4: each 8-bit emitter folds a negative in-range value via `+256`, keeps a
nonnegative in-range value as is, and rejects anything outside `[-256, 255]`
(or an unresolved expression) with a position-tagged error; the negated
variant is pointwise the plain variant applied to the negated expression. -/
theorem c4_value8_emitters (pos : Position) (e : EvalFunc) (pc : Int) :
    (∀ v : Int, e pc true = some v → -256 ≤ v → v ≤ -1 →
        (Value8.mk pos e).generate pc = Except.ok [256 + v])
    ∧ (∀ v : Int, e pc true = some v → 0 ≤ v → v ≤ 255 →
        (Value8.mk pos e).generate pc = Except.ok [v])
    ∧ (∀ v : Int, e pc true = some v → (v < -256 ∨ 255 < v) →
        (Value8.mk pos e).generate pc = Except.error ⟨pos, "Invalid 8-bits value"⟩)
    ∧ (e pc true = none →
        (Value8.mk pos e).generate pc
          = Except.error ⟨pos, "Not able to determine the 8-bits value"⟩)
    ∧ ((ValueNeg8.mk pos e).generate pc
          = (Value8.mk pos (fun p m => (e p m).map (fun x => -x))).generate pc) := by
  refine ⟨?_, ?_, ?_, ?_, ?_⟩
  · intro v hv h1 h2
    simp only [Value8.generate, hv]
    rw [if_neg (by simp only [Bool.or_eq_true, decide_eq_true_eq]; omega)]
    rw [if_pos (by omega)]
  · intro v hv h1 h2
    simp only [Value8.generate, hv]
    rw [if_neg (by simp only [Bool.or_eq_true, decide_eq_true_eq]; omega)]
    rw [if_neg (by omega)]
  · intro v hv hout
    simp only [Value8.generate, hv]
    rw [if_pos (by simp only [Bool.or_eq_true, decide_eq_true_eq]; omega)]
  · intro hv
    simp only [Value8.generate, hv]
  · simp only [ValueNeg8.generate, Value8.generate]
    cases h : e pc true <;> simp [h]

/-- C2: both branch-offset emitters range-check the pre-bias offset against
[-126, 129] and report a position-tagged error outside it; otherwise they
subtract the 2-byte instruction bias, fold a negative result via +256 and
emit that single byte.  The label-relative variant errors when PC is unknown
or the label unresolved, and otherwise its pre-bias offset is the resolved
label value minus pc. -/
theorem c2_branch_offset_emitters (pos : Position) (e : EvalFunc) (st : Labels)
    (lbl : String) (pc : Int) :
    (e pc true = none →
        (Jr.mk pos e).generate pc
          = Except.error ⟨pos, "Not able to determine the offset value"⟩)
    ∧ (∀ off : Int, e pc true = some off → (off < -126 ∨ 129 < off) →
        (Jr.mk pos e).generate pc
          = Except.error ⟨pos, "Invalid offset for JR instruction"⟩)
    ∧ (∀ off : Int, e pc true = some off → -126 ≤ off → off ≤ 129 →
        (Jr.mk pos e).generate pc
          = Except.ok [if off - 2 < 0 then 256 + (off - 2) else off - 2])
    ∧ ((JrRelative.mk pos lbl).generate st none
          = (Except.error ⟨pos, "Not able to determine PC value"⟩, st))
    ∧ ((getLabelValue st lbl).1 = none →
        (JrRelative.mk pos lbl).generate st (some pc)
          = (Except.error ⟨pos, "Not able to determine the value of label"⟩,
             (getLabelValue st lbl).2))
    ∧ (∀ target : Int, (getLabelValue st lbl).1 = some target →
        ((target - pc < -126 ∨ 129 < target - pc) →
            (JrRelative.mk pos lbl).generate st (some pc)
              = (Except.error ⟨pos, "Label is too far from JR instruction"⟩,
                 (getLabelValue st lbl).2))
        ∧ (-126 ≤ target - pc → target - pc ≤ 129 →
            (JrRelative.mk pos lbl).generate st (some pc)
              = (Except.ok [if target - pc - 2 < 0 then 256 + (target - pc - 2)
                            else target - pc - 2],
                 (getLabelValue st lbl).2))) := by
  have hgl : getLabelValue st lbl = ((getLabelValue st lbl).1, (getLabelValue st lbl).2) := rfl
  refine ⟨?_, ?_, ?_, rfl, ?_, ?_⟩
  · intro hv
    simp only [Jr.generate, hv]
  · intro off hv hout
    simp only [Jr.generate, hv]
    rw [if_pos (by simp only [Bool.or_eq_true, decide_eq_true_eq]; omega)]
  · intro off hv h1 h2
    simp only [Jr.generate, hv]
    rw [if_neg (by simp only [Bool.or_eq_true, decide_eq_true_eq]; omega)]
  · intro hnone
    simp only [JrRelative.generate, resolveLabelForJr]
    rw [hgl, hnone]
  · intro target htarget
    constructor
    · intro hout
      simp only [JrRelative.generate, resolveLabelForJr]
      rw [hgl, htarget]
      simp only []
      rw [if_pos (by simp only [Bool.or_eq_true, decide_eq_true_eq]; omega)]
    · intro h1 h2
      simp only [JrRelative.generate, resolveLabelForJr]
      rw [hgl, htarget]
      simp only []
      rw [if_neg (by simp only [Bool.or_eq_true, decide_eq_true_eq]; omega)]

/-- C7: expression evaluation is a total function into an optional value; the
binary and unary combinators yield none exactly when an operand yields none
and otherwise apply the operator to the operand values (a binary node whose
left side is absent passes the right value through). -/
theorem c7_expression_evaluation_total (l r e : EvalFunc) (op2 : Int → Int → Int)
    (op1 : Int → Int) (pc : Int) (must : Bool) :
    (binaryOperation none r op2 pc must = r pc must)
    ∧ (binaryOperation (some l) r op2 pc must = none
        ↔ (l pc must = none ∨ r pc must = none))
    ∧ (∀ a b : Int, l pc must = some a → r pc must = some b →
        binaryOperation (some l) r op2 pc must = some (op2 a b))
    ∧ (unaryOperation e op1 pc must = none ↔ e pc must = none)
    ∧ (∀ a : Int, e pc must = some a →
        unaryOperation e op1 pc must = some (op1 a)) := by
  refine ⟨rfl, ?_, ?_, ?_, ?_⟩
  · cases hl : l pc must <;> cases hr : r pc must <;> simp [binaryOperation, hl, hr]
  · intro a b ha hb
    simp [binaryOperation, ha, hb]
  · cases he : e pc must <;> simp [unaryOperation, he]
  · intro a ha
    simp [unaryOperation, ha]

/-- C8: the division operator used by binary expression nodes truncates
toward zero: for nonzero b the result has the magnitude of natAbs-division
and the sign of the operand signs. -/
theorem c8_operatorDiv_truncates (a b : Int) (hb : b ≠ 0) :
    operatorDiv a b = a.sign * b.sign * ((a.natAbs / b.natAbs : Nat) : Int) := by
  unfold operatorDiv
  rcases a with m | m <;> rcases b with n | n
  · rcases n with _ | n
    · exact absurd rfl hb
    · rcases m with _ | m
      · simp [Int.tdiv]
      · simp [Int.tdiv, Int.sign, Int.natAbs]
  · rcases m with _ | m
    · simp [Int.tdiv]
    · simp only [Int.tdiv, Int.sign, Int.natAbs]
      simp [Int.ofNat_eq_natCast]
  · rcases n with _ | n
    · exact absurd rfl hb
    · simp only [Int.tdiv, Int.sign, Int.natAbs]
      simp [Int.ofNat_eq_natCast]
  · simp only [Int.tdiv, Int.sign, Int.natAbs]
    simp [Int.ofNat_eq_natCast]

/-! ### Bitwise facts needed for the 16-bit emitter -/

theorem nat_and_two_pow_sub_one (n i : Nat) : n &&& (2 ^ i - 1) = n % 2 ^ i := by
  apply Nat.eq_of_testBit_eq
  intro j
  rw [Nat.testBit_land, Nat.testBit_two_pow_sub_one, Nat.testBit_mod_two_pow]
  exact Bool.and_comm _ _

theorem nat_and_ff00_shiftRight (n : Nat) (h : n < 65536) :
    (n &&& 65280) >>> 8 = n >>> 8 := by
  apply Nat.eq_of_testBit_eq
  intro j
  rw [Nat.testBit_shiftRight, Nat.testBit_shiftRight, Nat.testBit_land]
  by_cases hj : j < 8
  · have h65280 : (65280 : Nat).testBit (8 + j) = true := by
      interval_cases j <;> decide
    rw [h65280, Bool.and_true]
  · have hn : n.testBit (8 + j) = false := by
      apply Nat.testBit_lt_two_pow
      calc n < 65536 := h
        _ = 2 ^ 16 := by norm_num
        _ ≤ 2 ^ (8 + j) := Nat.pow_le_pow_right (by norm_num) (by omega)
    rw [hn, Bool.false_and]

theorem toUint32_of_small (v : Int) (h0 : 0 ≤ v) (h1 : v < 4294967296) :
    toUint32 v = v.toNat := by
  unfold toUint32
  rw [Int.emod_eq_of_lt h0 h1]

theorem jsAnd_of_small (a b : Int) (ha0 : 0 ≤ a) (ha : a < 4294967296)
    (hb0 : 0 ≤ b) (hb : b < 2147483648) :
    jsAnd a b = ((a.toNat &&& b.toNat : Nat) : Int) := by
  unfold jsAnd
  rw [toUint32_of_small a ha0 ha, toUint32_of_small b hb0 (by omega)]
  unfold int32OfUint32
  rw [if_pos]
  calc a.toNat &&& b.toNat ≤ b.toNat := Nat.and_le_right
    _ < 2147483648 := by omega

theorem jsAnd_255_eq_mod (v : Int) (h0 : 0 ≤ v) (h1 : v < 65536) :
    jsAnd v 255 = v % 256 := by
  rw [jsAnd_of_small v 255 h0 (by omega) (by norm_num) (by norm_num)]
  rw [show (255 : Int).toNat = 2 ^ 8 - 1 from rfl, nat_and_two_pow_sub_one]
  omega

theorem jsShr_and_ff00_eq_div (v : Int) (h0 : 0 ≤ v) (h1 : v < 65536) :
    jsShr (jsAnd v 65280) 8 = v / 256 := by
  rw [jsAnd_of_small v 65280 h0 (by omega) (by norm_num) (by norm_num)]
  rw [show (65280 : Int).toNat = 65280 from rfl]
  have hle : v.toNat &&& 65280 ≤ 65280 := Nat.and_le_right
  unfold jsShr toInt32
  rw [toUint32_of_small _ (by positivity)
    (by exact_mod_cast lt_of_le_of_lt hle (by norm_num))]
  rw [show toUint32 8 % 32 = 8 from rfl]
  unfold int32OfUint32
  rw [if_pos (by omega), Int.toNat_natCast]
  rw [Int.fdiv_eq_tdiv (by positivity) (by norm_num)]
  rw [show ((2 : Int) ^ 8) = ((256 : Nat) : Int) from rfl]
  rw [show ((v.toNat &&& 65280 : Nat) : Int).tdiv ((256 : Nat) : Int)
        = ((v.toNat &&& 65280) / 256 : Nat) from rfl]
  have hdiv : (v.toNat &&& 65280) / 256 = v.toNat / 256 := by
    have := nat_and_ff00_shiftRight v.toNat (by omega)
    rwa [Nat.shiftRight_eq_div_pow, Nat.shiftRight_eq_div_pow,
      show (2 : Nat) ^ 8 = 256 from rfl] at this
  rw [hdiv]
  omega

/-- C3: the 16-bit emitter rejects an unresolved expression or a value
outside [-65536, 65535] with a position-tagged error; otherwise it folds a
negative value via +65536 and emits exactly two bytes, the low byte of the
folded value first and its high byte second. -/
theorem c3_value16_emitter (pos : Position) (e : EvalFunc) (pc : Int) :
    (e pc true = none →
        (Value16.mk pos e).generate pc
          = Except.error ⟨pos, "Not able to determine the 16-bits value"⟩)
    ∧ (∀ v : Int, e pc true = some v → (v < -65536 ∨ 65535 < v) →
        (Value16.mk pos e).generate pc = Except.error ⟨pos, "Invalid 16-bits value"⟩)
    ∧ (∀ v : Int, e pc true = some v → -65536 ≤ v → v ≤ 65535 →
        (Value16.mk pos e).generate pc
          = Except.ok [(if v < 0 then 65536 + v else v) % 256,
                       (if v < 0 then 65536 + v else v) / 256]) := by
  refine ⟨?_, ?_, ?_⟩
  · intro hv
    simp only [Value16.generate, hv]
  · intro v hv hout
    simp only [Value16.generate, hv]
    rw [if_pos (by simp only [Bool.or_eq_true, decide_eq_true_eq]; omega)]
  · intro v hv h1 h2
    simp only [Value16.generate, hv]
    rw [if_neg (by simp only [Bool.or_eq_true, decide_eq_true_eq]; omega)]
    have h0 : 0 ≤ if v < 0 then 65536 + v else v := by split <;> omega
    have hlt : (if v < 0 then 65536 + v else v) < 65536 := by split <;> omega
    rw [show (0x00FF : Int) = 255 from rfl, show (0xFF00 : Int) = 65280 from rfl]
    rw [jsAnd_255_eq_mod _ h0 hlt, jsShr_and_ff00_eq_div _ h0 hlt]


/-! ### Symbol-table lemmas -/

theorem getLabelValue_eq (st : Labels) (n : String) :
    getLabelValue st n =
      match mapGet st n with
      | none => (none, mapSet st n ⟨none, 0, false, true⟩)
      | some l =>
        if l.known then (some l.value, mapSet st n { l with used := true })
        else
          match l.expression with
          | none => (none, mapSet st n { l with used := true })
          | some e =>
            match e () with
            | none => (none, mapSet st n { l with used := true })
            | some value =>
                (some value,
                 mapSet st n { l with value := value, known := true, used := true }) := rfl

/-- A known entry resolves to its cached value; only its `used` flag moves. -/
theorem getLabelValue_known (st : Labels) (n : String) (l : Label)
    (hget : mapGet st n = some l) (hk : l.known = true) :
    getLabelValue st n = (some l.value, mapSet st n { l with used := true }) := by
  simp only [getLabelValue_eq, hget, hk, if_true]

/-- Every resolution writes the entry of the requested name back (at least
the `used` flag), so the updated table is a `mapSet` at that name. -/
theorem getLabelValue_snd (st : Labels) (m : String) :
    ∃ l2 : Label, (getLabelValue st m).2 = mapSet st m l2 := by
  cases hget : mapGet st m with
  | none => exact ⟨⟨none, 0, false, true⟩, by simp only [getLabelValue_eq, hget]⟩
  | some l =>
      by_cases hk : l.known = true
      · exact ⟨{ l with used := true }, by simp only [getLabelValue_eq, hget, hk, if_true]⟩
      · cases he : l.expression with
        | none =>
            exact ⟨{ l with used := true },
              by simp only [getLabelValue_eq, hget, hk, Bool.false_eq_true, if_false, he]⟩
        | some e =>
            cases hev : e () with
            | none =>
                exact ⟨{ l with used := true },
                  by simp only [getLabelValue_eq, hget, hk, Bool.false_eq_true, if_false, he, hev]⟩
            | some value =>
                exact ⟨{ l with value := value, known := true, used := true },
                  by simp only [getLabelValue_eq, hget, hk, Bool.false_eq_true, if_false, he, hev]⟩

/-- A successful resolution caches the returned value. -/
theorem getLabelValue_caches (st : Labels) (n : String) (v : Int)
    (h : (getLabelValue st n).1 = some v) :
    ∃ l2 : Label, mapGet ((getLabelValue st n).2) n = some l2
      ∧ l2.known = true ∧ l2.value = v := by
  cases hget : mapGet st n with
  | none =>
      simp only [getLabelValue_eq, hget] at h
      exact absurd h (by simp)
  | some l =>
      by_cases hk : l.known = true
      · rw [getLabelValue_known st n l hget hk] at h ⊢
        obtain rfl : l.value = v := by simpa using h
        exact ⟨{ l with used := true }, mapGet_mapSet_self _ _ _, hk, rfl⟩
      · cases he : l.expression with
        | none =>
            simp only [getLabelValue_eq, hget, hk, Bool.false_eq_true, if_false, he] at h
            exact absurd h (by simp)
        | some e =>
            cases hev : e () with
            | none =>
                simp only [getLabelValue_eq, hget, hk, Bool.false_eq_true, if_false, he, hev] at h
                exact absurd h (by simp)
            | some value =>
                simp only [getLabelValue_eq, hget, hk, Bool.false_eq_true, if_false,
                  he, hev] at h ⊢
                obtain rfl : value = v := by simpa using h
                exact ⟨⟨some e, value, true, true⟩, mapGet_mapSet_self _ _ _, rfl, rfl⟩

/-- `addLabel` leaves every other name alone. -/
theorem addLabel_preserves_other (st : Labels) (m : String) (v : Option Int)
    (n : String) (hne : n ≠ m) : mapGet (addLabel st m v) n = mapGet st n := by
  cases hget : mapGet st m with
  | none =>
      simp only [addLabel, hget]
      exact mapGet_mapSet_ne st m n _ hne
  | some l =>
      by_cases hk : l.known = true
      · simp only [addLabel, hget, hk, if_true]
        exact mapGet_mapSet_ne st m n _ hne
      · simp only [addLabel, hget, hk, Bool.false_eq_true, if_false]
        exact mapGet_mapSet_ne st m n _ hne

/-- `addLabelExpression` leaves every other name alone. -/
theorem addLabelExpression_preserves_other (st : Labels) (m : String) (e : LExpr)
    (n : String) (hne : n ≠ m) :
    mapGet (addLabelExpression st m e) n = mapGet st n := by
  cases hget : mapGet st m with
  | none =>
      simp only [addLabelExpression, hget]
      exact mapGet_mapSet_ne st m n _ hne
  | some l =>
      by_cases hk : l.known = true
      · simp only [addLabelExpression, hget, hk, if_true]
      · simp only [addLabelExpression, hget, hk, Bool.false_eq_true, if_false]
        exact mapGet_mapSet_ne st m n _ hne

/-- `getLabelValue` leaves every other name alone. -/
theorem getLabelValue_preserves_other (st : Labels) (m n : String) (hne : n ≠ m) :
    mapGet ((getLabelValue st m).2) n = mapGet st n := by
  obtain ⟨l2, h⟩ := getLabelValue_snd st m
  rw [h]
  exact mapGet_mapSet_ne st m n _ hne

/-- One symbol-table call that does not declare name `n` preserves a known
entry of `n` (its value and stored expression included). -/
theorem entry_preserved_of_apply (o : LabelOp) (st : Labels) (n : String) (l : Label)
    (hget : mapGet st n = some l) (hk : l.known = true) (hd : o.declares n = false) :
    ∃ l2 : Label, mapGet (o.apply st) n = some l2 ∧ l2.known = true
      ∧ l2.value = l.value ∧ l2.expression = l.expression := by
  cases o with
  | declare m v =>
      have hne : n ≠ m := by
        simp only [LabelOp.declares, beq_eq_false_iff_ne] at hd
        exact fun hc => hd hc.symm
      exact ⟨l, by rw [LabelOp.apply, addLabel_preserves_other st m v n hne, hget],
        hk, rfl, rfl⟩
  | declareExpr m e =>
      have hne : n ≠ m := by
        simp only [LabelOp.declares, beq_eq_false_iff_ne] at hd
        exact fun hc => hd hc.symm
      exact ⟨l, by
        rw [LabelOp.apply, addLabelExpression_preserves_other st m e n hne, hget],
        hk, rfl, rfl⟩
  | read m =>
      by_cases hm : n = m
      · subst hm
        refine ⟨{ l with used := true }, ?_, hk, rfl, rfl⟩
        rw [LabelOp.apply, getLabelValue_known st n l hget hk]
        exact mapGet_mapSet_self _ _ _
      · exact ⟨l, by rw [LabelOp.apply, getLabelValue_preserves_other st m n hm, hget],
          hk, rfl, rfl⟩

/-- A whole run of symbol-table calls, none of which declares `n`, preserves
a known entry of `n`. -/
theorem entry_preserved_of_runOps (ops : List LabelOp) (st : Labels) (n : String)
    (l : Label) (hget : mapGet st n = some l) (hk : l.known = true)
    (hd : ∀ o ∈ ops, o.declares n = false) :
    ∃ l2 : Label, mapGet (runOps st ops) n = some l2 ∧ l2.known = true
      ∧ l2.value = l.value ∧ l2.expression = l.expression := by
  induction ops generalizing st l with
  | nil => exact ⟨l, hget, hk, rfl, rfl⟩
  | cons o rest ih =>
      obtain ⟨l2, h1, h2, h3, h4⟩ :=
        entry_preserved_of_apply o st n l hget hk (hd o (by simp))
      obtain ⟨l3, g1, g2, g3, g4⟩ :=
        ih (o.apply st) l2 h1 h2 (fun o2 ho2 => hd o2 (by simp [ho2]))
      refine ⟨l3, ?_, g2, by rw [g3, h3], by rw [g4, h4]⟩
      simpa [runOps] using g1

/-- C5: once a resolution returns a value for a name, the value is cached and
every later resolution of that name returns it, whatever other labels are
declared or read in between; a stored expression that still evaluates to
none leaves the value and known flag of its entry untouched. -/
theorem c5_resolve_memoization :
    (∀ (st : Labels) (n : String) (v : Int) (ops : List LabelOp),
        (getLabelValue st n).1 = some v →
        (∀ o ∈ ops, o.declares n = false) →
        (getLabelValue (runOps ((getLabelValue st n).2) ops) n).1 = some v)
    ∧ (∀ (st : Labels) (n : String) (l : Label) (e : LExpr),
        mapGet st n = some l → l.known = false → l.expression = some e →
        e () = none →
        (getLabelValue st n).1 = none
        ∧ ∃ l2 : Label, mapGet ((getLabelValue st n).2) n = some l2
            ∧ l2.value = l.value ∧ l2.known = false) := by
  constructor
  · intro st n v ops hv hops
    obtain ⟨l2, h1, h2, h3⟩ := getLabelValue_caches st n v hv
    obtain ⟨l3, g1, g2, g3, _⟩ :=
      entry_preserved_of_runOps ops ((getLabelValue st n).2) n l2 h1 h2 hops
    rw [getLabelValue_known _ n l3 g1 g2]
    rw [g3, h3]
  · intro st n l e hget hk hexpr hev
    have hknown : l.known = true → False := by simp [hk]
    constructor
    · simp only [getLabelValue_eq, hget, hk, Bool.false_eq_true, if_false, hexpr, hev]
    · refine ⟨{ l with used := true }, ?_, rfl, by simp [hk]⟩
      simp only [getLabelValue_eq, hget, hk, Bool.false_eq_true, if_false, hexpr, hev]
      exact mapGet_mapSet_self _ _ _

/-- `addLabel` rebinds the entry of the declared name: the new value and
known flag come from the argument alone, the stored expression is carried
over. -/
theorem addLabel_get_self (st : Labels) (name : String) (v : Option Int) :
    ∃ l : Label, mapGet (addLabel st name v) name = some l
      ∧ l.value = v.getD 0 ∧ l.known = v.isSome
      ∧ l.expression = ((mapGet st name).map Label.expression).getD none := by
  cases hget : mapGet st name with
  | none =>
      refine ⟨⟨none, v.getD 0, v.isSome, false⟩, ?_, rfl, rfl, rfl⟩
      simp only [addLabel, hget]
      exact mapGet_mapSet_self _ _ _
  | some l =>
      by_cases hk : l.known = true
      · refine ⟨{ l with value := v.getD 0, known := v.isSome }, ?_, rfl, rfl, by simp⟩
        simp only [addLabel, hget, hk, if_true]
        exact mapGet_mapSet_self _ _ _
      · refine ⟨{ l with value := v.getD 0, known := v.isSome }, ?_, rfl, rfl, by simp⟩
        simp only [addLabel, hget, hk, Bool.false_eq_true, if_false]
        exact mapGet_mapSet_self _ _ _

/-- C6: for a name that never carried an expression, the most recent
`addLabel` alone determines what `getLabelValue` returns, whatever was
declared for that name before; re-declaration overwrites value and known
unconditionally. -/
theorem c6_addLabel_last_wins :
    (∀ (st : Labels) (name : String) (v : Option Int),
        ∃ l : Label, mapGet (addLabel st name v) name = some l
          ∧ l.value = v.getD 0 ∧ l.known = v.isSome)
    ∧ (∀ (st : Labels) (name : String) (v : Option Int),
        ((mapGet st name).all fun l => l.expression.isNone) = true →
        (getLabelValue (addLabel st name v) name).1 = v) := by
  constructor
  · intro st name v
    obtain ⟨l, h1, h2, h3, _⟩ := addLabel_get_self st name v
    exact ⟨l, h1, h2, h3⟩
  · intro st name v hall
    obtain ⟨l, h1, h2, h3, h4⟩ := addLabel_get_self st name v
    have hexpr : l.expression = none := by
      cases hget : mapGet st name with
      | none => rw [h4, hget]; rfl
      | some l0 =>
          rw [hget] at hall
          simp only [Option.all_some, Option.isNone_iff_eq_none] at hall
          rw [h4, hget]
          simpa using hall
    cases v with
    | some x =>
        rw [getLabelValue_known _ name l h1 (by simp [h3])]
        simp [h2]
    | none =>
        have hkf : l.known = false := by simp [h3]
        simp only [getLabelValue_eq, h1, hkf, Bool.false_eq_true, if_false, hexpr]

/-- C9: within a run, `addLabelExpression` never changes a known entry at
all, `getLabelValue` never moves a known flag from true to false, and
`addLabel` for one name leaves every other name untouched — so only an
`addLabel` call for the same name can reset `known`. -/
theorem c9_known_transitions :
    (∀ (st : Labels) (m : String) (e : LExpr) (n : String) (l : Label),
        mapGet st n = some l → l.known = true →
        mapGet (addLabelExpression st m e) n = some l)
    ∧ (∀ (st : Labels) (m n : String) (l : Label),
        mapGet st n = some l → l.known = true →
        ∃ l2 : Label, mapGet ((getLabelValue st m).2) n = some l2
          ∧ l2.known = true ∧ l2.value = l.value)
    ∧ (∀ (st : Labels) (m : String) (v : Option Int) (n : String),
        n ≠ m → mapGet (addLabel st m v) n = mapGet st n) := by
  refine ⟨?_, ?_, ?_⟩
  · intro st m e n l hget hk
    by_cases hm : n = m
    · subst hm
      simp only [addLabelExpression, hget, hk, if_true]
    · rw [addLabelExpression_preserves_other st m e n hm, hget]
  · intro st m n l hget hk
    by_cases hm : n = m
    · subst hm
      refine ⟨{ l with used := true }, ?_, hk, rfl⟩
      rw [getLabelValue_known st n l hget hk]
      exact mapGet_mapSet_self _ _ _
    · exact ⟨l, by rw [getLabelValue_preserves_other st m n hm, hget], hk, rfl⟩
  · intro st m v n hne
    exact addLabel_preserves_other st m v n hne

/-- C10: `addLabel` never touches the stored expression of an entry, so a
label first declared as an expression and then re-declared with an unknown
direct value still resolves through its expression. -/
theorem c10_addLabel_keeps_expression :
    (∀ (st : Labels) (name : String) (v : Option Int) (l : Label),
        mapGet st name = some l →
        ∃ l2 : Label, mapGet (addLabel st name v) name = some l2
          ∧ l2.expression = l.expression)
    ∧ (∀ (st : Labels) (name : String) (e : LExpr) (x : Int),
        mapGet st name = none → e () = some x →
        (getLabelValue (addLabel (addLabelExpression st name e) name none) name).1
          = some x) := by
  constructor
  · intro st name v l hget
    obtain ⟨l2, h1, _, _, h4⟩ := addLabel_get_self st name v
    refine ⟨l2, h1, ?_⟩
    rw [h4, hget]
    rfl
  · intro st name e x hnone hev
    have hget1 : mapGet (addLabelExpression st name e) name
        = some ⟨some e, 0, false, false⟩ := by
      simp only [addLabelExpression, hnone]
      exact mapGet_mapSet_self _ _ _
    have hget2 : mapGet (addLabel (addLabelExpression st name e) name none) name
        = some ⟨some e, 0, false, false⟩ := by
      simp only [addLabel, hget1]
      exact mapGet_mapSet_self _ _ _
    simp only [getLabelValue_eq, hget2, Bool.false_eq_true, if_false, hev]

/-! ### Closed instances of the theorems above -/

theorem c2_branch_offset_emitters_witness :
    ((JrRelative.mk ⟨"f", {}⟩ "L").generate (addLabel resetLabels "L" (some 102)) (some 100)
        = (Except.ok [0], (getLabelValue (addLabel resetLabels "L" (some 102)) "L").2))
    ∧ ((JrRelative.mk ⟨"f", {}⟩ "L").generate (addLabel resetLabels "L" (some 229)) (some 100)
        = (Except.ok [127], (getLabelValue (addLabel resetLabels "L" (some 229)) "L").2))
    ∧ ((JrRelative.mk ⟨"f", {}⟩ "L").generate (addLabel resetLabels "L" (some 230)) (some 100)
        = (Except.error ⟨⟨"f", {}⟩, "Label is too far from JR instruction"⟩,
           (getLabelValue (addLabel resetLabels "L" (some 230)) "L").2))
    ∧ ((Jr.mk ⟨"f", {}⟩ (fun _ _ => some 129)).generate 0 = Except.ok [127]) := by
  refine ⟨?_, ?_, ?_, ?_⟩
  · have h := ((c2_branch_offset_emitters ⟨"f", {}⟩ (fun _ _ => none)
        (addLabel resetLabels "L" (some 102)) "L" 100).2.2.2.2.2 102 rfl).2
        (by norm_num) (by norm_num)
    simpa using h
  · have h := ((c2_branch_offset_emitters ⟨"f", {}⟩ (fun _ _ => none)
        (addLabel resetLabels "L" (some 229)) "L" 100).2.2.2.2.2 229 rfl).2
        (by norm_num) (by norm_num)
    simpa using h
  · have h := ((c2_branch_offset_emitters ⟨"f", {}⟩ (fun _ _ => none)
        (addLabel resetLabels "L" (some 230)) "L" 100).2.2.2.2.2 230 rfl).1
        (by norm_num)
    simpa using h
  · have h := (c2_branch_offset_emitters ⟨"f", {}⟩ (fun _ _ => some 129)
        resetLabels "L" 0).2.2.1 129 rfl (by norm_num) (by norm_num)
    simpa using h

theorem c3_value16_emitter_witness :
    (Value16.mk ⟨"f", {}⟩ (fun _ _ => some 4660)).generate 0 = Except.ok [52, 18]
    ∧ (Value16.mk ⟨"f", {}⟩ (fun _ _ => some (-1))).generate 0 = Except.ok [255, 255] := by
  constructor
  · have h := (c3_value16_emitter ⟨"f", {}⟩ (fun _ _ => some 4660) 0).2.2 4660 rfl
      (by norm_num) (by norm_num)
    simpa using h
  · have h := (c3_value16_emitter ⟨"f", {}⟩ (fun _ _ => some (-1)) 0).2.2 (-1) rfl
      (by norm_num) (by norm_num)
    simpa using h

theorem c4_value8_emitters_witness :
    (Value8.mk ⟨"f", {}⟩ (fun _ _ => some (-1))).generate 0 = Except.ok [255]
    ∧ (Value8.mk ⟨"f", {}⟩ (fun _ _ => some 7)).generate 0 = Except.ok [7]
    ∧ (Value8.mk ⟨"f", {}⟩ (fun _ _ => some 300)).generate 0
        = Except.error ⟨⟨"f", {}⟩, "Invalid 8-bits value"⟩
    ∧ (ValueNeg8.mk ⟨"f", {}⟩ (fun _ _ => some 5)).generate 0
        = (Value8.mk ⟨"f", {}⟩
            (fun p m => ((fun _ _ => some (5 : Int)) p m).map (fun x => -x))).generate 0 := by
  refine ⟨?_, ?_, ?_, ?_⟩
  · have h := (c4_value8_emitters ⟨"f", {}⟩ (fun _ _ => some (-1)) 0).1 (-1) rfl
      (by norm_num) (by norm_num)
    simpa using h
  · have h := (c4_value8_emitters ⟨"f", {}⟩ (fun _ _ => some 7) 0).2.1 7 rfl
      (by norm_num) (by norm_num)
    simpa using h
  · exact (c4_value8_emitters ⟨"f", {}⟩ (fun _ _ => some 300) 0).2.2.1 300 rfl
      (by norm_num)
  · exact (c4_value8_emitters ⟨"f", {}⟩ (fun _ _ => some 5) 0).2.2.2.2

theorem c5_resolve_memoization_witness :
    (getLabelValue (runOps
        ((getLabelValue (addLabelExpression resetLabels "A" (fun _ => some 7)) "A").2)
        [LabelOp.declare "B" (some 1), LabelOp.read "B"]) "A").1 = some 7
    ∧ ((getLabelValue (addLabelExpression resetLabels "A" (fun _ => none)) "A").1 = none
        ∧ ∃ l2 : Label,
            mapGet ((getLabelValue (addLabelExpression resetLabels "A" (fun _ => none)) "A").2)
              "A" = some l2
            ∧ l2.value = 0 ∧ l2.known = false) := by
  constructor
  · exact c5_resolve_memoization.1 (addLabelExpression resetLabels "A" (fun _ => some 7))
      "A" 7 [LabelOp.declare "B" (some 1), LabelOp.read "B"] rfl
      (by intro o ho; fin_cases ho <;> rfl)
  · exact c5_resolve_memoization.2 (addLabelExpression resetLabels "A" (fun _ => none))
      "A" ⟨some (fun _ => none), 0, false, false⟩ (fun _ => none) rfl rfl rfl rfl

theorem c6_addLabel_last_wins_witness :
    (getLabelValue (addLabel (addLabel resetLabels "A" (some 1)) "A" (some 2)) "A").1
      = some 2
    ∧ (getLabelValue (addLabel (addLabel resetLabels "A" (some 1)) "A" none) "A").1
      = none := by
  constructor
  · exact c6_addLabel_last_wins.2 (addLabel resetLabels "A" (some 1)) "A" (some 2) rfl
  · exact c6_addLabel_last_wins.2 (addLabel resetLabels "A" (some 1)) "A" none rfl

theorem c7_expression_evaluation_total_witness :
    binaryOperation (some (fun _ _ => some 6)) (fun _ _ => some 2)
        (fun a b => a + b) 0 true = some 8
    ∧ binaryOperation (some (fun _ _ => none)) (fun _ _ => some 2)
        (fun a b => a + b) 0 true = none
    ∧ unaryOperation (fun _ _ => some 3) (fun a => -a) 0 true = some (-3) := by
  refine ⟨?_, ?_, ?_⟩
  · exact (c7_expression_evaluation_total (fun _ _ => some 6) (fun _ _ => some 2)
      (fun _ _ => some 3) (fun a b => a + b) (fun a => -a) 0 true).2.2.1 6 2 rfl rfl
  · exact (c7_expression_evaluation_total (fun _ _ => none) (fun _ _ => some 2)
      (fun _ _ => some 3) (fun a b => a + b) (fun a => -a) 0 true).2.1.mpr (Or.inl rfl)
  · exact (c7_expression_evaluation_total (fun _ _ => some 6) (fun _ _ => some 2)
      (fun _ _ => some 3) (fun a b => a + b) (fun a => -a) 0 true).2.2.2.2 3 rfl

theorem c8_operatorDiv_truncates_witness :
    (2 : Int) ≠ 0 ∧ operatorDiv (-7) 2 = -3 := by
  refine ⟨by norm_num, ?_⟩
  rw [c8_operatorDiv_truncates (-7) 2 (by norm_num)]
  decide

theorem c9_known_transitions_witness :
    mapGet (addLabelExpression (addLabel resetLabels "A" (some 5)) "A" (fun _ => some 9)) "A"
      = some ⟨none, 5, true, false⟩
    ∧ (∃ l2 : Label,
        mapGet ((getLabelValue (addLabel resetLabels "A" (some 5)) "B").2) "A" = some l2
        ∧ l2.known = true ∧ l2.value = 5)
    ∧ mapGet (addLabel (addLabel resetLabels "A" (some 5)) "B" (some 1)) "A"
      = mapGet (addLabel resetLabels "A" (some 5)) "A" := by
  refine ⟨?_, ?_, ?_⟩
  · exact c9_known_transitions.1 (addLabel resetLabels "A" (some 5)) "A"
      (fun _ => some 9) "A" ⟨none, 5, true, false⟩ rfl rfl
  · exact c9_known_transitions.2.1 (addLabel resetLabels "A" (some 5)) "B" "A"
      ⟨none, 5, true, false⟩ rfl rfl
  · exact c9_known_transitions.2.2 (addLabel resetLabels "A" (some 5)) "B" (some 1) "A"
      (by decide)

theorem c10_addLabel_keeps_expression_witness :
    (∃ l2 : Label,
        mapGet (addLabel (addLabelExpression resetLabels "A" (fun _ => some 42)) "A" none)
          "A" = some l2
        ∧ l2.expression = some (fun _ => some 42))
    ∧ (getLabelValue (addLabel (addLabelExpression resetLabels "A" (fun _ => some 42))
          "A" none) "A").1 = some 42 := by
  constructor
  · obtain ⟨l2, h1, h2⟩ := c10_addLabel_keeps_expression.1
      (addLabelExpression resetLabels "A" (fun _ => some 42)) "A" none
      ⟨some (fun _ => some 42), 0, false, false⟩ rfl
    exact ⟨l2, h1, h2⟩
  · exact c10_addLabel_keeps_expression.2 resetLabels "A" (fun _ => some 42) 42 rfl rfl

end Z80
